import Mathlib

/-!
# Verification of the GraphQL federation composer (`services/api-gateway/src/federation.py`)

This file gives a shallow embedding of the `FederationComposer` class and proves
or refutes the frozen claims about it.  Python dictionaries parsed from JSON are
modelled as insertion-ordered association lists (`List (String × Json)`); Python
`None` coming from a JSON document is `Json.null`; machine-level details that the
claims do not mention (timestamps, logging) are elided and noted at each
definition.
-/

namespace Federation

/-- JSON values as produced by `response.json()`.  Objects keep the insertion
order of their keys, like Python dicts. -/
inductive Json where
  | null
  | bool (b : Bool)
  | num (n : Int)
  | str (s : String)
  | arr (items : List Json)
  | obj (fields : List (String × Json))

mutual

/-- Structural equality of JSON values, modelling Python `==` on values parsed
from JSON (identifiers compared during entity resolution are scalars, for which
Python `==` is exactly structural equality). -/
def Json.beq : Json → Json → Bool
  | .null, .null => true
  | .bool a, .bool b => a == b
  | .num a, .num b => a == b
  | .str a, .str b => a == b
  | .arr xs, .arr ys => Json.beqL xs ys
  | .obj xs, .obj ys => Json.beqF xs ys
  | _, _ => false

/-- Equality of JSON arrays, elementwise. -/
def Json.beqL : List Json → List Json → Bool
  | [], [] => true
  | x :: xs, y :: ys => Json.beq x y && Json.beqL xs ys
  | _, _ => false

/-- Equality of JSON objects, field by field. -/
def Json.beqF : List (String × Json) → List (String × Json) → Bool
  | [], [] => true
  | (k, v) :: fs, (k', v') :: gs => k == k' && Json.beq v v' && Json.beqF fs gs
  | _, _ => false

end

/-- Python `d[k]` / `d.get(k)` on a dict represented as an association list:
the first binding of the key (parsed JSON objects have unique keys). -/
def pyLookup (l : List (String × Json)) (k : String) : Option Json :=
  match l with
  | [] => none
  | (k', v) :: rest => if k' = k then some v else pyLookup rest k

/-- Python `k in d`. -/
def containsKey (l : List (String × Json)) (k : String) : Bool :=
  (pyLookup l k).isSome

/-- Python `d[k] = v`: overwrite in place if the key is present (keeping its
position — the first binding is the only one, since Python dicts have unique
keys), otherwise append at the end — exactly the insertion-order semantics of
a Python dict assignment. -/
def setKey : List (String × Json) → String → Json → List (String × Json)
  | [], k, v => [(k, v)]
  | (k', v') :: rest, k, v =>
    if k' = k then (k, v) :: rest else (k', v') :: setKey rest k v

/-- Python `base.update(other)`: assign every binding of `other` into `base`,
in order. -/
def dictUpdate (base other : List (String × Json)) : List (String × Json) :=
  other.foldl (fun b p => setKey b p.1 p.2) base

/-- Python truthiness of a JSON value (`if result["data"]:` etc.). -/
def pyTruthy : Json → Bool
  | .null => false
  | .bool b => b
  | .num n => n != 0
  | .str s => s ≠ ""
  | .arr items => !items.isEmpty
  | .obj fields => !fields.isEmpty

/-!
String primitives.  The Lean core `String` functions (`trim`, `splitOn`, ...)
are defined by well-founded recursion over byte positions and do not reduce
inside the kernel, so the Python string operations used by `federation.py` are
re-implemented here by structural recursion over the character list of the
string.  Each definition notes the Python operation it models.
-/

/-- Is `pre` a prefix of `l`?  (Python `str.startswith`.) -/
def startsWithL : List Char → List Char → Bool
  | _, [] => true
  | [], _ :: _ => false
  | c :: cs, p :: ps => c == p && startsWithL cs ps

/-- Python `sub in s` (substring containment), for a non-empty `sub`. -/
def hasSubL (s sub : List Char) : Bool :=
  match s with
  | [] => startsWithL [] sub
  | _ :: rest => startsWithL s sub || hasSubL rest sub

/-- Split a character list at every character satisfying `p`
(Python `str.split(sep)` for a one-character `sep` when `p = (· == sep)`). -/
def splitOnPred (p : Char → Bool) : List Char → List (List Char)
  | [] => [[]]
  | c :: rest =>
    match splitOnPred p rest with
    | [] => if p c then [[], []] else [[c]]  -- unreachable: result is never []
    | g :: gs => if p c then [] :: g :: gs else (c :: g) :: gs

/-- Python `str.strip()`: drop whitespace from both ends. -/
def trimL (l : List Char) : List Char :=
  ((l.dropWhile Char.isWhitespace).reverse.dropWhile Char.isWhitespace).reverse

/-- Python `str.strip()` on a `String`. -/
def pyTrim (s : String) : String := String.mk (trimL s.toList)

/-- Python `str.startswith(pre)` on a `String`. -/
def pyStartsWith (s pre : String) : Bool := startsWithL s.toList pre.toList

/-- Python `sub in s` on a `String`. -/
def hasSub (s sub : String) : Bool := hasSubL s.toList sub.toList

/-- Python `str.endswith(c)` for a single character: the last character is `c`. -/
def pyEndsWithChar (s : String) (c : Char) : Bool :=
  match s.toList.getLast? with
  | some c' => c' == c
  | none => false

/-- Python `str.split()` with no argument: split on whitespace, dropping empty
pieces. -/
def pySplitWs (s : String) : List String :=
  ((splitOnPred Char.isWhitespace s.toList).filter (· ≠ [])).map String.mk

/-- Python `str.split(sep)` for a one-character separator (the source only
splits on `':'`, `'('` and `'\n'`). -/
def pySplitChar (s : String) (sep : Char) : List String :=
  (splitOnPred (· == sep) s.toList).map String.mk

/-- Python `str.replace(c, '')` for a one-character pattern: remove every
occurrence. -/
def pyRemoveChar (s : String) (c : Char) : String :=
  String.mk (s.toList.filter (· != c))

/-- Python `str.capitalize()`: first character uppercased, every remaining
character lowercased (ASCII letters; the schema/type names in play are ASCII). -/
def pyCapitalize (s : String) : String :=
  match s.toList with
  | [] => ""
  | c :: cs => String.mk (c.toUpper :: cs.map Char.toLower)

/-- `FederationComposer._field_to_type_name` (federation.py lines 371-383):
`"users" -> "User"` — drop a trailing `'s'` when the name ends in `'s'` and is
longer than one character (`field_name[:-1]`), then `str.capitalize()` it. -/
def fieldToTypeName (fieldName : String) : String :=
  if pyEndsWithChar fieldName 's' && fieldName.toList.length > 1 then
    pyCapitalize (String.mk fieldName.toList.dropLast)
  else
    pyCapitalize fieldName

/-- The inline variant of the heuristic used in
`_transform_query_for_service.transform_field_node` (federation.py line 804):
`field_name[:-1].capitalize() if field_name.endswith('s') else
field_name.capitalize()` — note: no length guard, unlike
`_field_to_type_name`. -/
def inlineSingularize (fieldName : String) : String :=
  if pyEndsWithChar fieldName 's' then pyCapitalize (String.mk fieldName.toList.dropLast)
  else pyCapitalize fieldName

/-- A plain `String → String` association map (`self.type_to_service` etc.);
`lookupStr` is Python `d.get(k)`. -/
def lookupStr (l : List (String × String)) (k : String) : Option String :=
  match l with
  | [] => none
  | (k', v) :: rest => if k' = k then some v else lookupStr rest k

/-- Python `d[k] = v` on a `String → String` dict (overwrite in place, else
append). -/
def setStr : List (String × String) → String → String → List (String × String)
  | [], k, v => [(k, v)]
  | (k', v') :: rest, k, v =>
    if k' = k then (k, v) :: rest else (k', v') :: setStr rest k v

/-- Lookup in a `String → List String` dict (`self.type_extensions`). -/
def lookupStrList (l : List (String × List String)) (k : String) : Option (List String) :=
  match l with
  | [] => none
  | (k', v) :: rest => if k' = k then some v else lookupStrList rest k

/-- `self.type_extensions.setdefault(t, []); self.type_extensions[t].append(svc)`
— the get-or-init-then-append idiom of `_parse_schema_types` lines 126-128. -/
def appendExtension (l : List (String × List String)) (k v : String) :
    List (String × List String) :=
  match lookupStrList l k with
  | some _ => l.map (fun p => if p.1 = k then (p.1, p.2 ++ [v]) else p)
  | none => l ++ [(k, [v])]

/-- The four shared ownership maps built by `_parse_schema_types`
(`FederationComposer.__init__`, federation.py lines 48-54). -/
structure OwnershipMaps where
  typeToService : List (String × String)
  typeExtensions : List (String × List String)
  queryFieldToService : List (String × String)
  fieldToReturnType : List (String × String)
deriving DecidableEq

/-- Empty maps, as after `__init__`. -/
def emptyMaps : OwnershipMaps := ⟨[], [], [], []⟩

/-- Loop state of the line scan in `_parse_schema_types`: the shared maps plus
the `inside_query` flag and the `inside_type` variable. -/
structure ParseState where
  maps : OwnershipMaps
  insideQuery : Bool
  insideType : Option String
deriving DecidableEq

/-- One iteration of the `for line in lines` loop of
`FederationComposer._parse_schema_types` (federation.py lines 112-172),
translated branch by branch; `continue` is modelled by the if/else nesting.
Logging is elided. -/
def processLine (serviceName : String) (st : ParseState) (rawLine : String) : ParseState :=
  let line := pyTrim rawLine
  -- "if line.startswith('type ') and '@key' in line:" with "if len(parts) >= 2:"
  -- (when the inner guard fails no `continue` runs, so control falls through)
  if pyStartsWith line "type " && hasSub line "@key" && (pySplitWs line).length ≥ 2 then
    let typeName := (pySplitWs line).getD 1 ""
    let maps :=
      if !(hasSub line "extend") then
        { st.maps with typeToService := setStr st.maps.typeToService typeName serviceName }
      else
        { st.maps with
            typeExtensions := appendExtension st.maps.typeExtensions typeName serviceName }
    { st with maps := maps, insideType := some typeName }
  else
    -- "if inside_type and ':' in line and not line.startswith('#') and not ...'}'"
    let st :=
      if st.insideType.isSome && hasSub line ":" && !pyStartsWith line "#" &&
          !pyStartsWith line "\x7d" then
        let parts := pySplitChar line ':'
        if parts.length ≥ 2 then
          let fieldName := pyTrim (parts.getD 0 "")
          let returnType :=
            pyTrim (pyRemoveChar (pyRemoveChar (pyRemoveChar (pyTrim (parts.getD 1 "")) '!') '[') ']')
          if returnType ≠ "" &&
              !(List.contains ["ID", "String", "Int", "Float", "Boolean"] returnType) then
            { st with maps :=
                { st.maps with
                    fieldToReturnType :=
                      setStr st.maps.fieldToReturnType fieldName returnType } }
          else st
        else st
      else st
    -- "if inside_type and line.startswith('}'): inside_type = None; continue"
    if st.insideType.isSome && pyStartsWith line "\x7d" then
      { st with insideType := none }
    else if pyStartsWith line "type Query" then
      { st with insideQuery := true }
    else if st.insideQuery then
      if pyStartsWith line "\x7d" then
        { st with insideQuery := false }
      else if hasSub line ":" && !pyStartsWith line "#" then
        let fieldName₀ := pyTrim ((pySplitChar line ':').getD 0 "")
        let fieldName :=
          if hasSub fieldName₀ "(" then pyTrim ((pySplitChar fieldName₀ '(').getD 0 "")
          else fieldName₀
        if fieldName ≠ "" then
          { st with maps :=
              { st.maps with
                  queryFieldToService :=
                    setStr st.maps.queryFieldToService fieldName serviceName } }
        else st
      else st
    else st

/-- `FederationComposer._parse_schema_types` (federation.py lines 96-178):
line-oriented scan of a subgraph's SDL, accumulating into the shared maps.
The surrounding `try/except` never fires for the pure string operations
modelled here. -/
def parseSchemaTypes (serviceName : String) (sdl : String) (maps : OwnershipMaps) :
    OwnershipMaps :=
  if sdl = "" then maps  -- "if not sdl: return"
  else
    ((pySplitChar sdl '\n').foldl (processLine serviceName)
      { maps := maps, insideQuery := false, insideType := none }).maps

/-! ## Query routing (`_determine_services_for_query`, federation.py lines 340-369) -/

/-- The services one queried root field maps to: first the direct
`query_field_to_service` entry (with `continue`); otherwise the
singularize-capitalize heuristic type name is looked up in both
`type_to_service` and `type_extensions`. -/
def fieldServices (M : OwnershipMaps) (fieldName : String) : List String :=
  match lookupStr M.queryFieldToService fieldName with
  | some svc => [svc]
  | none =>
    let typeName := fieldToTypeName fieldName
    (match lookupStr M.typeToService typeName with
     | some svc => [svc]
     | none => []) ++
    (match lookupStrList M.typeExtensions typeName with
     | some svcs => svcs
     | none => [])

/-- `set.add` / `set.update` modelled as insertion-ordered dedup (the Python
`set` has arbitrary iteration order; every claim about the router depends only
on membership and emptiness). -/
def insertNew (acc : List String) (s : String) : List String :=
  if acc.contains s then acc else acc ++ [s]

/-- `FederationComposer._determine_services_for_query` (federation.py
lines 340-369). -/
def determineServicesForQuery (M : OwnershipMaps) (queriedFields : List String) :
    List String :=
  queriedFields.foldl (fun acc f => (fieldServices M f).foldl insertNew acc) []

/-- The routing decision of `execute_federated_query` (federation.py
lines 221-235): the services determined from the queried fields, or — when that
set is empty — the broadcast failsafe `list(self.service_urls.keys())`. -/
def servicesToDispatch (M : OwnershipMaps) (serviceUrls : List (String × String))
    (queriedFields : List String) : List String :=
  let services := determineServicesForQuery M queriedFields
  if services.isEmpty then serviceUrls.map Prod.fst else services

/-! ## The query tree and `_transform_query_for_service`
(federation.py lines 769-855) -/

/-- A node of the parsed query (graphql-core `FieldNode` with
name/alias/arguments/directives/selection-set, or any non-field selection such
as a fragment spread, which `transform_selection_set` passes through
unchanged).  Arguments and directives are opaque payloads: the transformer
copies them verbatim. -/
inductive Selection where
  | field (al : Option String) (name : String) (args : List String)
      (dirs : List String) (sels : Option (List Selection))
  | frag (tag : String)

/-- `type_name = self.field_to_return_type.get(field_name)` with the inline
falsy fallback of `transform_field_node` (federation.py lines 802-804). -/
def transformInferredType (M : OwnershipMaps) (fieldName : String) : String :=
  match lookupStr M.fieldToReturnType fieldName with
  | some t => if t = "" then inlineSingularize fieldName else t
  | none => inlineSingularize fieldName

mutual

/-- `transform_field_node` (federation.py lines 795-837) merged with the
per-selection dispatch of `transform_selection_set` (non-`FieldNode` selections
are appended unchanged, line 791).  A field without a selection set is returned
as-is; a field whose inferred return type is owned by a service other than the
target is rebuilt with the single selection `id` (alias, arguments, directives
kept); every other field is rebuilt around the recursively transformed
selection set. -/
def transformSelection (M : OwnershipMaps) (svc : String) : Selection → Selection
  | .frag tag => .frag tag
  | .field al name args dirs none => .field al name args dirs none
  | .field al name args dirs (some sels) =>
    let typeName := transformInferredType M name
    match lookupStr M.typeToService typeName with
    | some owner =>
      if owner ≠ svc then
        .field al name args dirs (some [.field none "id" [] [] none])
      else
        .field al name args dirs (some (transformSelectionSet M svc sels))
    | none => .field al name args dirs (some (transformSelectionSet M svc sels))

/-- `transform_selection_set` (federation.py lines 782-793). -/
def transformSelectionSet (M : OwnershipMaps) (svc : String) :
    List Selection → List Selection
  | [] => []
  | s :: rest => transformSelection M svc s :: transformSelectionSet M svc rest

end

/-- A definition of the parsed document: an operation definition (whose
operation/name/variable-definitions/directives are copied verbatim by the
transformer) or any other definition, kept unchanged. -/
inductive Definition where
  | op (name : Option String) (varDefs : List String) (dirs : List String)
      (sels : List Selection)
  | other (tag : String)

/-- `FederationComposer._transform_query_for_service` (federation.py
lines 839-855): rebuild every operation definition around its transformed
selection set, keep every other definition. -/
def transformDocument (M : OwnershipMaps) (svc : String) (doc : List Definition) :
    List Definition :=
  doc.map fun d =>
    match d with
    | .op nm vds dirs sels => .op nm vds dirs (transformSelectionSet M svc sels)
    | .other t => .other t

/-! ## Entity splicing (`_merge_entities`, federation.py lines 659-710) -/

/-- A resolved entity object, as returned in `result["data"]["_entities"]`
(`_fetch_entities` stores the parsed entity list per type name; the entities
are JSON objects). -/
abbrev Entity := List (String × Json)

/-- `resolved_entities : Dict[str, List[Dict]]` — type name to resolved
entity list. -/
abbrev ResolvedEntities := List (String × List Entity)

/-- Lookup of a type's resolved list (`type_name in resolved_entities`). -/
def lookupEntities (R : ResolvedEntities) (t : String) : Option (List Entity) :=
  match R with
  | [] => none
  | (t', es) :: rest => if t' = t then some es else lookupEntities rest t

/-- `resolved_entity.get("id")`, with Python's `None` default modelled as
`Json.null` (JSON `null` parses to Python `None`). -/
def entityIdOf (e : Entity) : Json :=
  (pyLookup e "id").getD Json.null

/-- The inner loop of the stub branch (federation.py lines 675-680): the first
entity of `resolved_entities[type_name]` whose `get("id")` equals the stub's
id, if the type is present at all. -/
def findEntity (R : ResolvedEntities) (t : String) (idv : Json) : Option Entity :=
  (lookupEntities R t).bind fun es => es.find? fun e => Json.beq (entityIdOf e) idv

/-- The stub shape test of line 673: `"id" in value and len(value) <= 2`
(parsed JSON objects have distinct keys, so the list length is the dict
length). -/
def isStubFields (fs : List (String × Json)) : Bool :=
  containsKey fs "id" && fs.length ≤ 2

/-- Python truthiness of the `type_name` argument (`and type_name`,
line 673): present and non-empty. -/
def tnTruthy : Option String → Bool
  | some t => t ≠ ""
  | none => false

/-- The `inferred_type` computed for a child value (federation.py
lines 686-691): only for dict/list children, `field_to_return_type.get(key)`
with falsy fallback to `_field_to_type_name(key)`. -/
def inferChildType (M : OwnershipMaps) (key : String) (v : Json) : Option String :=
  match v with
  | .obj _ | .arr _ =>
    some (match lookupStr M.fieldToReturnType key with
          | some t => if t = "" then fieldToTypeName key else t
          | none => fieldToTypeName key)
  | _ => none

mutual

/-- `merge_into_value` (federation.py lines 669-697): replace entity stubs by
their resolved entity (identifier match), rebuild other dicts key by key,
map over lists, return scalars unchanged. -/
def mergeV (M : OwnershipMaps) (R : ResolvedEntities) (tn : Option String) :
    Json → Json
  | .obj fs =>
    if isStubFields fs && tnTruthy tn then
      match tn with
      | some t =>
        (match findEntity R t ((pyLookup fs "id").getD Json.null) with
         | some e => .obj e
         | none => .obj fs)
      | none => .obj fs  -- unreachable: `tnTruthy none = false`
    else .obj (mergeF M R fs)
  | .arr items => .arr (mergeL M R tn items)
  | .null => .null
  | .bool b => .bool b
  | .num n => .num n
  | .str s => .str s

/-- The list comprehension of line 695: each item merged with the same
`type_name`. -/
def mergeL (M : OwnershipMaps) (R : ResolvedEntities) (tn : Option String) :
    List Json → List Json
  | [] => []
  | x :: xs => mergeV M R tn x :: mergeL M R tn xs

/-- The dict rebuild of lines 684-693: every key kept in order, each child
merged under its inferred type. -/
def mergeF (M : OwnershipMaps) (R : ResolvedEntities) :
    List (String × Json) → List (String × Json)
  | [] => []
  | (k, v) :: rest => (k, mergeV M R (inferChildType M k v) v) :: mergeF M R rest

end

/-- `FederationComposer._merge_entities` (federation.py lines 699-710): per
service result, splice entities into a truthy `data` value (`{**result,
"data": merged}` keeps the key order, modelled by `setKey`), keep the result
untouched otherwise.  The top-level call passes `type_name = None`. -/
def mergeEntities (M : OwnershipMaps) (R : ResolvedEntities)
    (results : List (String × List (String × Json))) :
    List (String × List (String × Json)) :=
  results.map fun p =>
    match pyLookup p.2 "data" with
    | some d => if pyTruthy d then (p.1, setKey p.2 "data" (mergeV M R none d)) else p
    | none => p

/-! ## Result merging (`_merge_results`, federation.py lines 991-1018) -/

/-- The composed response: `data` is a JSON value (`Json.null` models
`"data": None`), `errors` is `none` when the key has been deleted. -/
structure Merged where
  data : Json
  errors : Option (List Json)

/-- One iteration of the loop in `_merge_results` over one service's response:
`merged["data"].update(result["data"])` when the `data` key is present and
truthy, `merged["errors"].extend(result["errors"])` when the `errors` key is
present.  A truthy non-dict `data` or a non-list `errors` would raise
`TypeError` in Python (caught by the request-level handler); those shapes are
outside the well-formed response domain (`respWF`) the theorems quantify
over, and the model leaves the accumulator unchanged there. -/
def mergeStep (acc : List (String × Json) × List Json)
    (result : List (String × Json)) : List (String × Json) × List Json :=
  let accData :=
    match pyLookup result "data" with
    | some d =>
      if pyTruthy d then
        match d with
        | .obj ds => dictUpdate acc.1 ds
        | _ => acc.1
      else acc.1
    | none => acc.1
  let accErrs :=
    match pyLookup result "errors" with
    | some (.arr es) => acc.2 ++ es
    | _ => acc.2
  (accData, accErrs)

/-- `FederationComposer._merge_results` (federation.py lines 991-1018):
start from `{"data": {}, "errors": []}`, fold every service response in
iteration order, then delete an empty `errors` list and replace an empty
`data` dict by `None`. -/
def mergeResults (results : List (String × List (String × Json))) : Merged :=
  let acc := results.foldl (fun acc r => mergeStep acc r.2) ([], [])
  { data := if acc.1.isEmpty then Json.null else Json.obj acc.1
    errors := if acc.2.isEmpty then none else some acc.2 }

/-- Well-formed subgraph response: if `data` is present and truthy it is an
object, and if `errors` is present it is a list — the shapes every GraphQL
response (and every error payload built by the engine itself) has; anything
else raises `TypeError` inside `_merge_results` in Python. -/
def respWF (result : List (String × Json)) : Bool :=
  (match pyLookup result "data" with
   | some d => !pyTruthy d || (match d with | .obj _ => true | _ => false)
   | none => true) &&
  (match pyLookup result "errors" with
   | some e => (match e with | .arr _ => true | _ => false)
   | none => true)

/-- The top-level keys a response contributes to the composed `data`. -/
def dataFieldsOf (result : List (String × Json)) : List (String × Json) :=
  match pyLookup result "data" with
  | some (.obj ds) => ds
  | _ => []

/-- A response's error list (empty when the key is absent). -/
def errsOf (result : List (String × Json)) : List Json :=
  match pyLookup result "errors" with
  | some (.arr es) => es
  | _ => []

/-- The concatenation of every subgraph's error list, in iteration order. -/
def errsConcat (results : List (String × List (String × Json))) : List Json :=
  results.foldl (fun a r => a ++ errsOf r.2) []

/-- The value of the key's *last* binding in an object (what repeated
`d[k] = v` assignments leave behind when `update` walks the object). -/
def lastLookup (l : List (String × Json)) (k : String) : Option Json :=
  match l with
  | [] => none
  | (k', v) :: rest =>
    match lastLookup rest k with
    | some v' => some v'
    | none => if k' = k then some v else none

/-- What one response contributes at key `k`. -/
def dataContrib (result : List (String × Json)) (k : String) : Option Json :=
  lastLookup (dataFieldsOf result) k

/-- Lookup into the composed `data` object. -/
def mergedDataLookup (m : Merged) (k : String) : Option Json :=
  match m.data with
  | .obj fs => pyLookup fs k
  | _ => none

/-! ## Execution engine (`_execute_on_services`, federation.py lines 857-989,
`_execute_with_transformed_queries`, lines 712-767, and `_track_service_call`,
lines 1032-1078) -/

/-- Generic lookup in a Python dict with arbitrary values (`results` maps a
service name to its raw response). -/
def lookupAssoc {α : Type} (l : List (String × α)) (k : String) : Option α :=
  match l with
  | [] => none
  | (k', v) :: rest => if k' = k then some v else lookupAssoc rest k

/-- Generic `d[k] = v` (overwrite in place, else append). -/
def setAssoc {α : Type} : List (String × α) → String → α → List (String × α)
  | [], k, v => [(k, v)]
  | (k', v') :: rest, k, v =>
    if k' = k then (k, v) :: rest else (k', v') :: setAssoc rest k v

/-- One entry of the per-run `ServiceCallRecord` buffer
(`self.run_service_calls[run_id].append({...})`, federation.py lines 1066-1078).
The fields that merely copy the call's payload (`query`, `variables`,
`input_data`, `output_data`, `error_messages`) and the wall-clock `timestamp`
are elided; the claims concern the record's existence, duration and status. -/
structure ServiceCallRecord where
  serviceName : String
  url : String
  durationMs : Nat
  statusCode : Nat
  hasErrors : Bool
deriving DecidableEq

/-- The outcome the network oracle assigns to one subgraph call: an HTTP 200
with a parsed JSON body, a non-200 status, or a transport exception — the
three branches of `_execute_on_services`'s per-call handling.  The duration is
the elapsed network time of that call. -/
inductive CallOutcome where
  | success (body : List (String × Json)) (durationMs : Nat)
  | httpError (status : Nat) (durationMs : Nat)
  | exc (msg : String) (durationMs : Nat)

/-- `f"Service {service_name} error: {detail}"`. -/
def svcErrorMessage (name detail : String) : String :=
  "Service " ++ name ++ " error: " ++ detail

/-- The synthesized error payload stored for a failed call
(federation.py lines 930-932 and 962-964). -/
def svcErrorResponse (name detail : String) : List (String × Json) :=
  [("errors", Json.arr [Json.obj [("message", Json.str (svcErrorMessage name detail))]])]

/-- The response stored into `results[service_name]` for each outcome. -/
def responseOf (name : String) : CallOutcome → List (String × Json)
  | .success body _ => body
  | .httpError status _ => svcErrorResponse name (toString status)
  | .exc msg _ => svcErrorResponse name msg

/-- The `ServiceCallRecord` handed to `_track_service_call` for each outcome:
status 200 / the HTTP status / 0, `has_errors` per the three call sites
(federation.py lines 906-917, 936-947, 968-979). -/
def recordOf (name url : String) : CallOutcome → ServiceCallRecord
  | .success body dur => ⟨name, url, dur, 200, containsKey body "errors"⟩
  | .httpError status dur => ⟨name, url, dur, status, true⟩
  | .exc _ dur => ⟨name, url, dur, 0, true⟩

/-- Python truthiness of the `run_id` argument (`if not run_id: return`,
federation.py line 1060): present and non-empty. -/
def runIdTruthy : Option String → Bool
  | some s => s ≠ ""
  | none => false

/-- `FederationComposer._track_service_call` (federation.py lines 1032-1078):
append the record to the run's buffer unless `run_id` is falsy. -/
def trackServiceCall (runId : Option String) (buffer : List ServiceCallRecord)
    (rec : ServiceCallRecord) : List ServiceCallRecord :=
  if runIdTruthy runId then buffer ++ [rec] else buffer

/-- `FederationComposer._execute_on_services` (federation.py lines 857-989) as
a state fold: services missing from `service_urls` are skipped; every executed
call stores its response into `results` and hands a record to
`_track_service_call`.  The `await client.post` sits inside the `for` loop
(the `tasks` list of line 868 is never populated), so the fold order is the
execution order. -/
def executeOnServices (urls : List (String × String)) (names : List String)
    (runId : Option String) (oc : String → CallOutcome) :
    List (String × List (String × Json)) × List ServiceCallRecord :=
  names.foldl
    (fun acc name =>
      match lookupStr urls name with
      | none => acc
      | some base =>
        (setAssoc acc.1 name (responseOf name (oc name)),
         trackServiceCall runId acc.2 (recordOf name (base ++ "/graphql") (oc name))))
    ([], [])

/-- `FederationComposer._execute_with_transformed_queries` (federation.py
lines 712-767): per service, the query is first rewritten by
`_transform_query_for_service` (the oracle receives the transformed document),
and the same three outcome branches fill `results` — but no branch calls
`_track_service_call`, so the per-run record buffer passes through
unchanged. -/
def executeWithTransformedQueries (M : OwnershipMaps) (urls : List (String × String))
    (names : List String) (doc : List Definition)
    (oc : String → List Definition → CallOutcome)
    (buffer : List ServiceCallRecord) :
    List (String × List (String × Json)) × List ServiceCallRecord :=
  (names.foldl
    (fun acc name =>
      match lookupStr urls name with
      | none => acc
      | some _ =>
        setAssoc acc name (responseOf name (oc name (transformDocument M name doc))))
    [],
   buffer)

/-- The elapsed duration of an outcome. -/
def durationOf : CallOutcome → Nat
  | .success _ d => d
  | .httpError _ d => d
  | .exc _ d => d

/-- The timing of the calls issued by `_execute_on_services`
(`(service, startMs, endMs)` per executed call): each `await client.post`
completes before the next loop iteration starts, so call `i+1` begins at the
completion time of call `i`.  Only network time is modelled. -/
def executeOnServicesSchedule (urls : List (String × String)) (names : List String)
    (oc : String → CallOutcome) : List (String × Nat × Nat) :=
  (names.foldl
    (fun (acc : List (String × Nat × Nat) × Nat) name =>
      match lookupStr urls name with
      | none => acc
      | some _ =>
        (acc.1 ++ [(name, acc.2, acc.2 + durationOf (oc name))],
         acc.2 + durationOf (oc name)))
    ([], 0)).1

/-! ## `execute_federated_query` (federation.py lines 180-320), plain path -/

/-- The response built by the request-level `except` handler
(federation.py lines 317-320). -/
def federationErrorResponse (msg : String) : Merged :=
  { data := Json.null,
    errors := some [Json.obj [("message", Json.str ("Federation error: " ++ msg))]] }

/-- `FederationComposer.execute_federated_query` on the path without entity
resolution (federation.py lines 211-320): parse and root-field extraction are
summarised by `parsed` (`.error e` models an exception raised inside the `try`
block — a `parse` failure in particular — whose message the `except` branch
wraps); on success the query is routed, executed on every routed service and
the results merged. -/
def executeFederatedQuery (M : OwnershipMaps) (urls : List (String × String))
    (runId : Option String) (oc : String → CallOutcome)
    (parsed : Except String (List String)) : Merged :=
  match parsed with
  | .error e => federationErrorResponse e
  | .ok rootFields =>
    mergeResults (executeOnServices urls (servicesToDispatch M urls rootFields) runId oc).1

/-! ## Helper lemmas about the dict model -/

theorem Json.beq_spec :
    ∀ n : Nat,
      (∀ a b : Json, sizeOf a ≤ n → (Json.beq a b = true ↔ a = b)) ∧
      (∀ xs ys : List Json, sizeOf xs ≤ n → (Json.beqL xs ys = true ↔ xs = ys)) ∧
      (∀ fs gs : List (String × Json), sizeOf fs ≤ n → (Json.beqF fs gs = true ↔ fs = gs)) := by
  intro n
  induction n using Nat.strong_induction_on with
  | _ n ih =>
    refine ⟨?_, ?_, ?_⟩
    · intro a b ha
      cases a <;> cases b <;> simp_all [Json.beq]
      case arr.arr xs ys =>
        have hlt : sizeOf xs < n := by have := Json.arr.sizeOf_spec xs; omega
        exact (ih _ hlt).2.1 xs ys (Nat.le_refl _)
      case obj.obj fs gs =>
        have hlt : sizeOf fs < n := by have := Json.obj.sizeOf_spec fs; omega
        exact (ih _ hlt).2.2 fs gs (Nat.le_refl _)
    · intro xs ys ha
      cases xs with
      | nil => cases ys <;> simp [Json.beqL]
      | cons x tl =>
        cases ys with
        | nil => simp [Json.beqL]
        | cons y tl' =>
          have h1 : sizeOf x < n := by
            have : sizeOf (x :: tl) = 1 + sizeOf x + sizeOf tl := by simp
            omega
          have h2 : sizeOf tl < n := by
            have : sizeOf (x :: tl) = 1 + sizeOf x + sizeOf tl := by simp
            omega
          simp only [Json.beqL, Bool.and_eq_true, List.cons.injEq]
          rw [(ih _ h1).1 x y (Nat.le_refl _), (ih _ h2).2.1 tl tl' (Nat.le_refl _)]
    · intro fs gs ha
      cases fs with
      | nil => cases gs <;> simp [Json.beqF]
      | cons p fs' =>
        cases gs with
        | nil => obtain ⟨k, v⟩ := p; simp [Json.beqF]
        | cons q gs' =>
          obtain ⟨k, v⟩ := p; obtain ⟨k', v'⟩ := q
          have h1 : sizeOf v < n := by
            have : sizeOf ((k, v) :: fs') = 1 + (1 + sizeOf k + sizeOf v) + sizeOf fs' := by
              simp
            omega
          have h2 : sizeOf fs' < n := by
            have : sizeOf ((k, v) :: fs') = 1 + (1 + sizeOf k + sizeOf v) + sizeOf fs' := by
              simp
            omega
          simp only [Json.beqF, Bool.and_eq_true, beq_iff_eq, List.cons.injEq, Prod.mk.injEq]
          rw [(ih _ h1).1 v v' (Nat.le_refl _), (ih _ h2).2.2 fs' gs' (Nat.le_refl _)]

/-- `Json.beq` decides equality. -/
theorem Json.beq_iff_eq (a b : Json) : Json.beq a b = true ↔ a = b :=
  (Json.beq_spec (sizeOf a)).1 a b (Nat.le_refl _)

theorem pyLookup_setKey_self (l : List (String × Json)) (k : String) (v : Json) :
    pyLookup (setKey l k v) k = some v := by
  induction l with
  | nil => simp [setKey, pyLookup]
  | cons p rest ih =>
    obtain ⟨k', v'⟩ := p
    by_cases h : k' = k <;> simp [setKey, pyLookup, h, ih]

theorem pyLookup_setKey_other (l : List (String × Json)) (k : String) (v : Json)
    (k' : String) (hk : k' ≠ k) :
    pyLookup (setKey l k v) k' = pyLookup l k' := by
  have hk' : ¬k = k' := fun h => hk h.symm
  induction l with
  | nil => simp [setKey, pyLookup, hk']
  | cons p rest ih =>
    obtain ⟨k₀, v₀⟩ := p
    by_cases h : k₀ = k
    · subst h
      simp [setKey, pyLookup, hk']
    · by_cases h2 : k₀ = k'
      · subst h2
        simp [setKey, pyLookup, h]
      · simp [setKey, pyLookup, h, h2, ih]

theorem pyLookup_dictUpdate (base other : List (String × Json)) (k : String) :
    pyLookup (dictUpdate base other) k =
      match lastLookup other k with
      | some v => some v
      | none => pyLookup base k := by
  induction other generalizing base with
  | nil => simp [dictUpdate, lastLookup]
  | cons p rest ih =>
    obtain ⟨k₀, v₀⟩ := p
    show pyLookup (dictUpdate (setKey base k₀ v₀) rest) k = _
    rw [ih]
    by_cases h : k₀ = k
    · cases hr : lastLookup rest k with
      | some v' => simp [lastLookup, hr]
      | none => simp [lastLookup, hr, h, pyLookup_setKey_self]
    · cases hr : lastLookup rest k with
      | some v' => simp [lastLookup, hr]
      | none =>
        simp [lastLookup, hr, h, pyLookup_setKey_other _ _ _ _ (fun h' => h h'.symm)]

theorem setKey_ne_nil (l : List (String × Json)) (k : String) (v : Json) :
    setKey l k v ≠ [] := by
  cases l with
  | nil => simp [setKey]
  | cons p rest =>
    obtain ⟨k', v'⟩ := p
    by_cases h : k' = k <;> simp [setKey, h]

theorem dictUpdate_eq_nil (base other : List (String × Json)) :
    dictUpdate base other = [] ↔ base = [] ∧ other = [] := by
  induction other generalizing base with
  | nil => simp [dictUpdate]
  | cons p rest ih =>
    show dictUpdate (setKey base p.1 p.2) rest = [] ↔ _
    rw [ih]
    simp [setKey_ne_nil]

theorem lookupAssoc_setAssoc_self {α : Type} (l : List (String × α)) (k : String)
    (v : α) : lookupAssoc (setAssoc l k v) k = some v := by
  induction l with
  | nil => simp [setAssoc, lookupAssoc]
  | cons p rest ih =>
    obtain ⟨k', v'⟩ := p
    by_cases h : k' = k <;> simp [setAssoc, lookupAssoc, h, ih]

theorem lookupAssoc_setAssoc_other {α : Type} (l : List (String × α)) (k : String)
    (v : α) (k' : String) (hk : k' ≠ k) :
    lookupAssoc (setAssoc l k v) k' = lookupAssoc l k' := by
  have hk' : ¬k = k' := fun h => hk h.symm
  induction l with
  | nil => simp [setAssoc, lookupAssoc, hk']
  | cons p rest ih =>
    obtain ⟨k₀, v₀⟩ := p
    by_cases h : k₀ = k
    · subst h
      simp [setAssoc, lookupAssoc, hk']
    · by_cases h2 : k₀ = k'
      · subst h2
        simp [setAssoc, lookupAssoc, h]
      · simp [setAssoc, lookupAssoc, h, h2, ih]

theorem mem_setAssoc {α : Type} (l : List (String × α)) (k : String) (v : α)
    (p : String × α) (hp : p ∈ setAssoc l k v) : p = (k, v) ∨ p ∈ l := by
  induction l with
  | nil => simpa [setAssoc] using hp
  | cons q rest ih =>
    obtain ⟨k₀, v₀⟩ := q
    by_cases h : k₀ = k
    · subst h
      simp only [setAssoc, if_pos rfl] at hp
      rcases List.mem_cons.mp hp with h2 | h2
      · left; exact h2
      · right; exact List.mem_cons_of_mem _ h2
    · simp only [setAssoc, if_neg h] at hp
      rcases List.mem_cons.mp hp with h2 | h2
      · right; simp [h2]
      · rcases ih h2 with h3 | h3
        · left; exact h3
        · right; exact List.mem_cons_of_mem _ h3

theorem lookupAssoc_mem {α : Type} (l : List (String × α)) (k : String) (v : α)
    (h : lookupAssoc l k = some v) : (k, v) ∈ l := by
  induction l with
  | nil => simp [lookupAssoc] at h
  | cons p rest ih =>
    obtain ⟨k₀, v₀⟩ := p
    by_cases hk : k₀ = k
    · subst hk
      have h2 : v₀ = v := by simpa [lookupAssoc] using h
      subst h2
      exact List.mem_cons_self _ _
    · simp only [lookupAssoc, hk, if_neg, if_false] at h
      exact List.mem_cons_of_mem _ (ih h)

/-! ## Lemmas about `_merge_results` -/

theorem mergeStep_fst (d : List (String × Json)) (e : List Json)
    (r : List (String × Json)) :
    (mergeStep (d, e) r).1 =
      match pyLookup r "data" with
      | some (.obj ds) => if ds.isEmpty then d else dictUpdate d ds
      | _ => d := by
  unfold mergeStep
  cases h : pyLookup r "data" with
  | none => simp
  | some v =>
    cases v <;> simp [pyTruthy]
    case obj ds => cases ds <;> simp

theorem mergeStep_snd (d : List (String × Json)) (e : List Json)
    (r : List (String × Json)) :
    (mergeStep (d, e) r).2 = e ++ errsOf r := by
  unfold mergeStep errsOf
  cases h : pyLookup r "errors" with
  | none => simp
  | some v => cases v <;> simp

theorem errsFold_gen (l : List (String × List (String × Json))) :
    ∀ a : List Json, l.foldl (fun a r => a ++ errsOf r.2) a = a ++ errsConcat l := by
  induction l with
  | nil => intro a; simp [errsConcat]
  | cons q rest ih =>
    intro a
    show List.foldl _ (a ++ errsOf q.2) rest = _
    rw [ih]
    have h2 : errsConcat (q :: rest) = errsOf q.2 ++ errsConcat rest := by
      show List.foldl _ ([] ++ errsOf q.2) rest = _
      rw [ih]
      simp
    rw [h2, List.append_assoc]

theorem errsConcat_cons (r : String × List (String × Json))
    (rest : List (String × List (String × Json))) :
    errsConcat (r :: rest) = errsOf r.2 ++ errsConcat rest := by
  show List.foldl _ ([] ++ errsOf r.2) rest = _
  rw [errsFold_gen]
  simp

theorem mergeFold_snd (results : List (String × List (String × Json)))
    (d : List (String × Json)) (e : List Json) :
    (results.foldl (fun acc r => mergeStep acc r.2) (d, e)).2 = e ++ errsConcat results := by
  induction results generalizing d e with
  | nil => simp [errsConcat]
  | cons r rest ih =>
    show (rest.foldl (fun acc r => mergeStep acc r.2) (mergeStep (d, e) r.2)).2 = _
    have hstep : mergeStep (d, e) r.2 = ((mergeStep (d, e) r.2).1, e ++ errsOf r.2) := by
      rw [← mergeStep_snd d e r.2]
    rw [hstep, ih, errsConcat_cons]
    simp

theorem mergeFold_fst_lookup (results : List (String × List (String × Json)))
    (d : List (String × Json)) (e : List Json) (k : String) :
    pyLookup (results.foldl (fun acc r => mergeStep acc r.2) (d, e)).1 k =
      results.foldl
        (fun a r => match dataContrib r.2 k with | some v => some v | none => a)
        (pyLookup d k) := by
  induction results generalizing d e with
  | nil => simp
  | cons r rest ih =>
    show pyLookup (rest.foldl (fun acc r => mergeStep acc r.2) (mergeStep (d, e) r.2)).1 k = _
    have hstep : mergeStep (d, e) r.2 = ((mergeStep (d, e) r.2).1, (mergeStep (d, e) r.2).2) := rfl
    rw [hstep, ih]
    have hone : pyLookup (mergeStep (d, e) r.2).1 k =
        match dataContrib r.2 k with | some v => some v | none => pyLookup d k := by
      rw [mergeStep_fst]
      unfold dataContrib dataFieldsOf
      cases h : pyLookup r.2 "data" with
      | none => simp [lastLookup]
      | some v =>
        cases v <;> simp [lastLookup]
        case obj ds =>
          cases hds : ds with
          | nil => simp [lastLookup]
          | cons p rest' =>
            simp only [List.isEmpty_cons, if_neg, Bool.false_eq_true, if_false]
            rw [pyLookup_dictUpdate]
    rw [hone, List.foldl_cons]

theorem mergeFold_fst_nil (results : List (String × List (String × Json)))
    (d : List (String × Json)) (e : List Json) :
    (results.foldl (fun acc r => mergeStep acc r.2) (d, e)).1 = [] ↔
      d = [] ∧ ∀ r ∈ results, dataFieldsOf r.2 = [] := by
  induction results generalizing d e with
  | nil => simp
  | cons r rest ih =>
    show (rest.foldl (fun acc r => mergeStep acc r.2) (mergeStep (d, e) r.2)).1 = [] ↔ _
    have hstep : mergeStep (d, e) r.2 = ((mergeStep (d, e) r.2).1, (mergeStep (d, e) r.2).2) := rfl
    rw [hstep, ih]
    have hone : (mergeStep (d, e) r.2).1 = [] ↔ d = [] ∧ dataFieldsOf r.2 = [] := by
      rw [mergeStep_fst]
      unfold dataFieldsOf
      cases h : pyLookup r.2 "data" with
      | none => simp
      | some v =>
        cases v <;> simp
        case obj ds =>
          cases hds : ds with
          | nil => simp
          | cons p rest' =>
            simp only [List.isEmpty_cons, if_neg, Bool.false_eq_true, if_false]
            rw [dictUpdate_eq_nil]
    rw [hone]
    constructor
    · rintro ⟨⟨h1, h2⟩, h3⟩
      refine ⟨h1, ?_⟩
      intro q hq
      rcases List.mem_cons.mp hq with h4 | h4
      · subst h4; exact h2
      · exact h3 q h4
    · rintro ⟨h1, h2⟩
      exact ⟨⟨h1, h2 r (List.mem_cons_self _ _)⟩, fun q hq => h2 q (List.mem_cons_of_mem _ hq)⟩

theorem mergeResults_errors_eq (results : List (String × List (String × Json))) :
    (mergeResults results).errors =
      if (errsConcat results).isEmpty then none else some (errsConcat results) := by
  have h2 := mergeFold_snd results [] []
  simp only [List.nil_append] at h2
  show (if ((results.foldl (fun acc r => mergeStep acc r.2) ([], [])).2).isEmpty then none
        else some ((results.foldl (fun acc r => mergeStep acc r.2) ([], [])).2)) = _
  rw [h2]

theorem mergedDataLookup_foldl (results : List (String × List (String × Json)))
    (k : String) :
    mergedDataLookup (mergeResults results) k =
      results.foldl
        (fun a r => match dataContrib r.2 k with | some v => some v | none => a) none := by
  have h4 := mergeFold_fst_lookup results [] [] k
  have h0 : pyLookup [] k = none := rfl
  rw [h0] at h4
  rw [← h4]
  show (match (if ((results.foldl (fun acc r => mergeStep acc r.2) ([], [])).1).isEmpty
          then Json.null
          else Json.obj (results.foldl (fun acc r => mergeStep acc r.2) ([], [])).1) with
        | Json.obj fs => pyLookup fs k
        | _ => none) = _
  by_cases he : ((results.foldl (fun acc r => mergeStep acc r.2) ([], [])).1).isEmpty = true
  · have hz : (results.foldl (fun acc r => mergeStep acc r.2) ([], [])).1 = [] := by
      simpa [List.isEmpty_iff] using he
    rw [he]
    simp [hz, pyLookup]
  · simp only [he, Bool.false_eq_true, if_neg, if_false]

theorem mergeResults_data_null_iff (results : List (String × List (String × Json))) :
    (mergeResults results).data = Json.null ↔ ∀ r ∈ results, dataFieldsOf r.2 = [] := by
  have hnil := mergeFold_fst_nil results [] []
  simp only [true_and] at hnil
  show (if ((results.foldl (fun acc r => mergeStep acc r.2) ([], [])).1).isEmpty
        then Json.null
        else Json.obj (results.foldl (fun acc r => mergeStep acc r.2) ([], [])).1) =
      Json.null ↔ _
  by_cases he : ((results.foldl (fun acc r => mergeStep acc r.2) ([], [])).1).isEmpty = true
  · have hz : (results.foldl (fun acc r => mergeStep acc r.2) ([], [])).1 = [] := by
      simpa [List.isEmpty_iff] using he
    rw [he]
    simp only [if_pos]
    constructor
    · intro _
      exact hnil.mp hz
    · intro _
      trivial
  · have hz : (results.foldl (fun acc r => mergeStep acc r.2) ([], [])).1 ≠ [] := by
      intro h
      rw [h] at he
      simp at he
    simp only [he, Bool.false_eq_true, if_neg, if_false]
    constructor
    · intro h
      cases h
    · intro h
      exact absurd (hnil.mpr h) hz

/-! ## Lemmas about `_merge_entities` -/

theorem mergeF_keys (M : OwnershipMaps) (R : ResolvedEntities)
    (fs : List (String × Json)) :
    (mergeF M R fs).map Prod.fst = fs.map Prod.fst := by
  induction fs with
  | nil => simp [mergeF]
  | cons p rest ih =>
    obtain ⟨k, v⟩ := p
    simp [mergeF, ih]

theorem mergeL_length (M : OwnershipMaps) (R : ResolvedEntities) (tn : Option String)
    (l : List Json) : (mergeL M R tn l).length = l.length := by
  induction l with
  | nil => simp [mergeL]
  | cons x xs ih => simp [mergeL, ih]

theorem merge_nil_all (M : OwnershipMaps) :
    ∀ n : Nat,
      (∀ v : Json, ∀ tn : Option String, sizeOf v ≤ n → mergeV M [] tn v = v) ∧
      (∀ l : List Json, ∀ tn : Option String, sizeOf l ≤ n → mergeL M [] tn l = l) ∧
      (∀ fs : List (String × Json), sizeOf fs ≤ n → mergeF M [] fs = fs) := by
  intro n
  induction n using Nat.strong_induction_on with
  | _ n ih =>
    refine ⟨?_, ?_, ?_⟩
    · intro v tn hv
      cases v with
      | null => simp [mergeV]
      | bool b => simp [mergeV]
      | num m => simp [mergeV]
      | str st => simp [mergeV]
      | arr items =>
        have hlt : sizeOf items < n := by
          have := Json.arr.sizeOf_spec items
          omega
        simp [mergeV, (ih _ hlt).2.1 items tn (Nat.le_refl _)]
      | obj fs =>
        have hlt : sizeOf fs < n := by
          have := Json.obj.sizeOf_spec fs
          omega
        by_cases hc : (isStubFields fs && tnTruthy tn) = true
        · cases tn with
          | some t => simp [mergeV, hc, findEntity, lookupEntities]
          | none => simp [tnTruthy] at hc
        · simp [mergeV, hc, (ih _ hlt).2.2 fs (Nat.le_refl _)]
    · intro l tn hl
      cases l with
      | nil => simp [mergeL]
      | cons x xs =>
        have h1 : sizeOf x < n := by
          have : sizeOf (x :: xs) = 1 + sizeOf x + sizeOf xs := by simp
          omega
        have h2 : sizeOf xs < n := by
          have : sizeOf (x :: xs) = 1 + sizeOf x + sizeOf xs := by simp
          omega
        simp [mergeL, (ih _ h1).1 x tn (Nat.le_refl _), (ih _ h2).2.1 xs tn (Nat.le_refl _)]
    · intro fs hfs
      cases fs with
      | nil => simp [mergeF]
      | cons p rest =>
        obtain ⟨k, v⟩ := p
        have h1 : sizeOf v < n := by
          have : sizeOf ((k, v) :: rest) = 1 + (1 + sizeOf k + sizeOf v) + sizeOf rest := by
            simp
          omega
        have h2 : sizeOf rest < n := by
          have : sizeOf ((k, v) :: rest) = 1 + (1 + sizeOf k + sizeOf v) + sizeOf rest := by
            simp
          omega
        simp [mergeF, (ih _ h1).1 v _ (Nat.le_refl _), (ih _ h2).2.2 rest (Nat.le_refl _)]

theorem mergeV_nil (M : OwnershipMaps) (tn : Option String) (v : Json) :
    mergeV M [] tn v = v :=
  (merge_nil_all M (sizeOf v)).1 v tn (Nat.le_refl _)

theorem setKey_lookup_eq (l : List (String × Json)) (k : String) (v : Json)
    (h : pyLookup l k = some v) : setKey l k v = l := by
  induction l with
  | nil => simp [pyLookup] at h
  | cons p rest ih =>
    obtain ⟨k', v'⟩ := p
    by_cases hk : k' = k
    · subst hk
      have h2 : v' = v := by simpa [pyLookup] using h
      simp [setKey, h2]
    · simp only [pyLookup, hk, if_neg, if_false] at h
      simp [setKey, hk, ih h]

theorem mergeEntities_nil (M : OwnershipMaps)
    (results : List (String × List (String × Json))) :
    mergeEntities M [] results = results := by
  unfold mergeEntities
  induction results with
  | nil => simp
  | cons p rest ih =>
    rw [List.map_cons, ih]
    congr 1
    cases h : pyLookup p.2 "data" with
    | none => simp
    | some d =>
      by_cases ht : pyTruthy d = true
      · simp [ht, mergeV_nil, setKey_lookup_eq _ _ _ h]
      · simp [ht]

/-! ## Lemmas about `_transform_query_for_service` -/

theorem transform_idem_all (M : OwnershipMaps) (svc : String) :
    ∀ n : Nat,
      (∀ s : Selection, sizeOf s ≤ n →
        transformSelection M svc (transformSelection M svc s) =
          transformSelection M svc s) ∧
      (∀ l : List Selection, sizeOf l ≤ n →
        transformSelectionSet M svc (transformSelectionSet M svc l) =
          transformSelectionSet M svc l) := by
  intro n
  induction n using Nat.strong_induction_on with
  | _ n ih =>
    constructor
    · intro s hs
      match s with
      | .frag tag => simp [transformSelection]
      | .field al name args dirs none => simp [transformSelection]
      | .field al name args dirs (some sels) =>
        have hlt : sizeOf sels < n := by
          have h1 : sizeOf (Selection.field al name args dirs (some sels)) =
              1 + sizeOf al + sizeOf name + sizeOf args + sizeOf dirs + sizeOf (some sels) := by
            simp
          have h2 : sizeOf (some sels) = 1 + sizeOf sels := by simp
          omega
        cases ho : lookupStr M.typeToService (transformInferredType M name) with
        | some owner =>
          by_cases he : owner = svc
          · simp [transformSelection, ho, he, (ih _ hlt).2 sels (Nat.le_refl _)]
          · simp [transformSelection, ho, he]
        | none => simp [transformSelection, ho, (ih _ hlt).2 sels (Nat.le_refl _)]
    · intro l hl
      match l with
      | [] => simp [transformSelectionSet]
      | s :: rest =>
        have h1 : sizeOf s < n := by
          have : sizeOf (s :: rest) = 1 + sizeOf s + sizeOf rest := by simp
          omega
        have h2 : sizeOf rest < n := by
          have : sizeOf (s :: rest) = 1 + sizeOf s + sizeOf rest := by simp
          omega
        simp [transformSelectionSet, (ih _ h1).1 s (Nat.le_refl _),
          (ih _ h2).2 rest (Nat.le_refl _)]

theorem transformSelectionSet_idem (M : OwnershipMaps) (svc : String)
    (l : List Selection) :
    transformSelectionSet M svc (transformSelectionSet M svc l) =
      transformSelectionSet M svc l :=
  (transform_idem_all M svc (sizeOf l)).2 l (Nat.le_refl _)

/-! ## Lemmas about routing and the execution engine -/

theorem determineServices_nil (M : OwnershipMaps) (fields : List String)
    (h : ∀ f ∈ fields, fieldServices M f = []) :
    determineServicesForQuery M fields = [] := by
  unfold determineServicesForQuery
  have gen : ∀ l : List String, (∀ f ∈ l, fieldServices M f = []) →
      l.foldl (fun acc f => (fieldServices M f).foldl insertNew acc) [] = [] := by
    intro l
    induction l with
    | nil => intro _; rfl
    | cons f rest ih =>
      intro hl
      show List.foldl _ ((fieldServices M f).foldl insertNew []) rest = []
      rw [hl f (List.mem_cons_self _ _)]
      exact ih fun g hg => hl g (List.mem_cons_of_mem _ hg)
  exact gen fields h

theorem execOnServices_records_aux (urls : List (String × String))
    (runId : Option String) (oc : String → CallOutcome) :
    ∀ (names : List String) (r0 : List (String × List (String × Json)))
      (b0 : List ServiceCallRecord),
      (names.foldl
        (fun acc name =>
          match lookupStr urls name with
          | none => acc
          | some base =>
            (setAssoc acc.1 name (responseOf name (oc name)),
             trackServiceCall runId acc.2 (recordOf name (base ++ "/graphql") (oc name))))
        (r0, b0)).2 =
      b0 ++
        (if runIdTruthy runId then
          (names.filter fun nm => (lookupStr urls nm).isSome).map
            fun nm => recordOf nm ((lookupStr urls nm).getD "" ++ "/graphql") (oc nm)
        else []) := by
  intro names
  induction names with
  | nil => intro r0 b0; simp
  | cons nm rest ih =>
    intro r0 b0
    rw [List.foldl_cons]
    cases hu : lookupStr urls nm with
    | none =>
      simp only [hu]
      rw [ih]
      simp [hu]
    | some base =>
      simp only [hu]
      rw [ih]
      by_cases hr : runIdTruthy runId = true
      · simp [trackServiceCall, hr, hu]
      · simp [trackServiceCall, hr, hu]

theorem execOnServices_records (urls : List (String × String)) (names : List String)
    (runId : Option String) (oc : String → CallOutcome) :
    (executeOnServices urls names runId oc).2 =
      if runIdTruthy runId then
        (names.filter fun nm => (lookupStr urls nm).isSome).map
          fun nm => recordOf nm ((lookupStr urls nm).getD "" ++ "/graphql") (oc nm)
      else [] := by
  have h := execOnServices_records_aux urls runId oc names [] []
  simpa [executeOnServices] using h

theorem execOnServices_results_aux (urls : List (String × String))
    (runId : Option String) (oc : String → CallOutcome) :
    ∀ (names : List String) (r0 : List (String × List (String × Json)))
      (b0 : List ServiceCallRecord) (s : String),
      (lookupStr urls s).isSome →
      lookupAssoc
        (names.foldl
          (fun acc name =>
            match lookupStr urls name with
            | none => acc
            | some base =>
              (setAssoc acc.1 name (responseOf name (oc name)),
               trackServiceCall runId acc.2 (recordOf name (base ++ "/graphql") (oc name))))
          (r0, b0)).1 s =
      (if s ∈ names then some (responseOf s (oc s)) else lookupAssoc r0 s) := by
  intro names
  induction names with
  | nil => intro r0 b0 s _; simp
  | cons nm rest ih =>
    intro r0 b0 s hs
    rw [List.foldl_cons]
    cases hu : lookupStr urls nm with
    | none =>
      simp only [hu]
      rw [ih _ _ _ hs]
      by_cases he : s = nm
      · subst he
        rw [hu] at hs
        simp at hs
      · simp [List.mem_cons, he]
    | some base =>
      simp only [hu]
      rw [ih _ _ _ hs]
      by_cases hm : s ∈ rest
      · simp [hm]
      · by_cases he : s = nm
        · subst he
          simp [hm, lookupAssoc_setAssoc_self]
        · simp [hm, he, lookupAssoc_setAssoc_other _ _ _ _ he]

theorem execOnServices_results_lookup (urls : List (String × String))
    (names : List String) (runId : Option String) (oc : String → CallOutcome)
    (s : String) (hs : (lookupStr urls s).isSome) (hm : s ∈ names) :
    lookupAssoc (executeOnServices urls names runId oc).1 s =
      some (responseOf s (oc s)) := by
  have h := execOnServices_results_aux urls runId oc names [] [] s hs
  unfold executeOnServices
  rw [h]
  simp [hm]

theorem execOnServices_entries_aux (urls : List (String × String))
    (runId : Option String) (oc : String → CallOutcome) :
    ∀ (names : List String) (r0 : List (String × List (String × Json)))
      (b0 : List ServiceCallRecord),
      (∀ p ∈ r0, p.2 = responseOf p.1 (oc p.1)) →
      ∀ p ∈ (names.foldl
          (fun acc name =>
            match lookupStr urls name with
            | none => acc
            | some base =>
              (setAssoc acc.1 name (responseOf name (oc name)),
               trackServiceCall runId acc.2 (recordOf name (base ++ "/graphql") (oc name))))
          (r0, b0)).1, p.2 = responseOf p.1 (oc p.1) := by
  intro names
  induction names with
  | nil => intro r0 b0 h0; simpa using h0
  | cons nm rest ih =>
    intro r0 b0 h0
    rw [List.foldl_cons]
    cases hu : lookupStr urls nm with
    | none =>
      simp only [hu]
      exact ih r0 b0 h0
    | some base =>
      simp only [hu]
      refine ih _ _ ?_
      intro p hp
      rcases mem_setAssoc _ _ _ _ hp with h2 | h2
      · rw [h2]
      · exact h0 p h2

theorem execOnServices_entries (urls : List (String × String)) (names : List String)
    (runId : Option String) (oc : String → CallOutcome) :
    ∀ p ∈ (executeOnServices urls names runId oc).1, p.2 = responseOf p.1 (oc p.1) := by
  exact execOnServices_entries_aux urls runId oc names [] [] (by simp)

theorem mem_errsConcat (results : List (String × List (String × Json)))
    (r : String × List (String × Json)) (hr : r ∈ results) (e : Json)
    (he : e ∈ errsOf r.2) : e ∈ errsConcat results := by
  induction results with
  | nil => simp at hr
  | cons q rest ih =>
    rw [errsConcat_cons]
    rcases List.mem_cons.mp hr with h2 | h2
    · subst h2
      exact List.mem_append_left _ he
    · exact List.mem_append_right _ (ih h2)

theorem lastLookup_isSome_of_mem (ds : List (String × Json)) (k : String) (v : Json)
    (h : (k, v) ∈ ds) : (lastLookup ds k).isSome := by
  induction ds with
  | nil => simp at h
  | cons p rest ih =>
    obtain ⟨k', v'⟩ := p
    rcases List.mem_cons.mp h with h2 | h2
    · cases hr : lastLookup rest k with
      | some w => simp [lastLookup, hr]
      | none =>
        have hk : k' = k := by
          injection h2 with ha hb
          exact ha.symm
        simp [lastLookup, hr, hk]
    · have := ih h2
      cases hr : lastLookup rest k with
      | some w => simp [lastLookup, hr]
      | none => rw [hr] at this; simp at this

theorem foldl_contrib_isSome (results : List (String × List (String × Json)))
    (k : String) :
    ∀ a0 : Option Json,
      (a0.isSome ∨ ∃ r ∈ results, (dataContrib r.2 k).isSome) →
      (results.foldl
        (fun a r => match dataContrib r.2 k with | some v => some v | none => a)
        a0).isSome := by
  induction results with
  | nil =>
    intro a0 h
    rcases h with h | ⟨r, hr, _⟩
    · simpa using h
    · simp at hr
  | cons q rest ih =>
    intro a0 h
    show (rest.foldl _ (match dataContrib q.2 k with | some v => some v | none => a0)).isSome
    apply ih
    rcases h with h | ⟨r, hr, h2⟩
    · left
      cases hc : dataContrib q.2 k with
      | some v => simp [hc]
      | none => simpa [hc] using h
    · rcases List.mem_cons.mp hr with h3 | h3
      · subst h3
        left
        cases hc : dataContrib r.2 k with
        | some v => simp [hc]
        | none => rw [hc] at h2; simp at h2
      · right
        exact ⟨r, h3, h2⟩

/-! ## Lemmas about `_field_to_type_name` (ASCII case behaviour) -/

theorem toNat_charOfNat (m : Nat) (h : m.isValidChar) : (Char.ofNat m).toNat = m := by
  unfold Char.ofNat
  rw [dif_pos h]
  rfl

/-- `str.lower()` of any character is never an ASCII uppercase letter
(code points 65-90). -/
theorem toLower_not_upper (c : Char) :
    ¬(65 ≤ (Char.toLower c).toNat ∧ (Char.toLower c).toNat ≤ 90) := by
  unfold Char.toLower
  by_cases h : c.toNat ≥ 65 ∧ c.toNat ≤ 90
  · rw [if_pos h]
    rw [toNat_charOfNat]
    · omega
    · left
      omega
  · rw [if_neg h]
    omega

theorem pyCapitalize_tail_not_upper (x : String) (c : Char)
    (hc : c ∈ (pyCapitalize x).toList.drop 1) :
    ¬(65 ≤ c.toNat ∧ c.toNat ≤ 90) := by
  cases hl : x.toList with
  | nil =>
    have h1 : pyCapitalize x = "" := by
      unfold pyCapitalize
      rw [hl]
    rw [h1] at hc
    simp at hc
  | cons c0 cs =>
    have h1 : (pyCapitalize x).toList = c0.toUpper :: cs.map Char.toLower := by
      unfold pyCapitalize
      rw [hl]
      rfl
    rw [h1] at hc
    simp only [List.drop_succ_cons, List.drop_zero] at hc
    rcases List.mem_map.mp hc with ⟨c', _, hc'⟩
    rw [← hc']
    exact toLower_not_upper c'

theorem pyCapitalize_ne_BlogPost (x : String) : pyCapitalize x ≠ "BlogPost" := by
  intro he
  have hP : ('P' : Char) ∈ (pyCapitalize x).toList.drop 1 := by
    rw [he]
    decide
  exact pyCapitalize_tail_not_upper x 'P' hP (by decide)

theorem fieldToTypeName_tail_not_upper (f : String) (c : Char)
    (hc : c ∈ (fieldToTypeName f).toList.drop 1) :
    ¬(65 ≤ c.toNat ∧ c.toNat ≤ 90) := by
  unfold fieldToTypeName at hc
  by_cases h : (pyEndsWithChar f 's' && f.toList.length > 1) = true
  · rw [if_pos h] at hc
    exact pyCapitalize_tail_not_upper _ c hc
  · rw [if_neg h] at hc
    exact pyCapitalize_tail_not_upper _ c hc

theorem fieldToTypeName_ne_BlogPost (f : String) : fieldToTypeName f ≠ "BlogPost" := by
  unfold fieldToTypeName
  by_cases h : (pyEndsWithChar f 's' && f.toList.length > 1) = true
  · rw [if_pos h]
    exact pyCapitalize_ne_BlogPost _
  · rw [if_neg h]
    exact pyCapitalize_ne_BlogPost _

/-! ## The claims -/

/-- C1: for every parsed field node, `transformForSubgraph` replaces the
sub-selection of a field whose inferred return type (FieldReturnType with the
inline singularize-capitalize fallback) is owned by a subgraph different from
the target with exactly one identifier field named `id`, discarding the other
requested sub-fields, while keeping the field's alias, arguments and
directives verbatim; every other field node (owner equal to the target, no
known owner, or no sub-selection) is recursed into with its selection
otherwise unchanged. -/
theorem transform_for_subgraph_stubbing (M : OwnershipMaps) (svc : String)
    (al : Option String) (name : String) (args dirs : List String)
    (sels : List Selection) :
    (∀ owner, lookupStr M.typeToService (transformInferredType M name) = some owner →
      owner ≠ svc →
      transformSelection M svc (.field al name args dirs (some sels)) =
        .field al name args dirs (some [.field none "id" [] [] none]))
    ∧ (∀ owner, lookupStr M.typeToService (transformInferredType M name) = some owner →
      owner = svc →
      transformSelection M svc (.field al name args dirs (some sels)) =
        .field al name args dirs (some (transformSelectionSet M svc sels)))
    ∧ (lookupStr M.typeToService (transformInferredType M name) = none →
      transformSelection M svc (.field al name args dirs (some sels)) =
        .field al name args dirs (some (transformSelectionSet M svc sels)))
    ∧ transformSelection M svc (.field al name args dirs none) =
        .field al name args dirs none := by
  refine ⟨?_, ?_, ?_, ?_⟩
  · intro owner ho hne
    simp [transformSelection, ho, hne]
  · intro owner ho he
    simp [transformSelection, ho, he]
  · intro ho
    simp [transformSelection, ho]
  · simp [transformSelection]

/-- Witness for C1: with `User` owned by `users` and `author : User`, the
`author` branch sent to `posts` is stubbed to `author { id }`. -/
theorem transform_for_subgraph_stubbing_witness :
    transformSelection ⟨[("User", "users")], [], [], [("author", "User")]⟩ "posts"
      (.field none "author" [] [] (some [.field none "name" [] [] none])) =
      .field none "author" [] [] (some [.field none "id" [] [] none]) :=
  (transform_for_subgraph_stubbing ⟨[("User", "users")], [], [], [("author", "User")]⟩
    "posts" none "author" [] [] [.field none "name" [] [] none]).1
    "users" (by rfl) (by decide)

/-- C2: `mergeResults` concatenates all subgraphs' error lists and omits the
`errors` field exactly when that concatenation is empty; the composed `data`
holds, at every key, the contribution of the last subgraph (in iteration
order) whose truthy `data` object carries that key; and `data` is the explicit
absence marker `null` exactly when no subgraph contributed any top-level key.
Well-formedness (`respWF`) delimits the response shapes on which the Python
code would not raise `TypeError`. -/
theorem merge_results_composition (results : List (String × List (String × Json)))
    (_hwf : ∀ r ∈ results, respWF r.2 = true) :
    ((mergeResults results).errors =
      if (errsConcat results).isEmpty then none else some (errsConcat results))
    ∧ (∀ k, mergedDataLookup (mergeResults results) k =
        results.foldl
          (fun a r => match dataContrib r.2 k with | some v => some v | none => a) none)
    ∧ ((mergeResults results).data = Json.null ↔ ∀ r ∈ results, dataFieldsOf r.2 = []) := by
  exact ⟨mergeResults_errors_eq results, fun k => mergedDataLookup_foldl results k,
    mergeResults_data_null_iff results⟩

/-- Witness for C2 (Scenario C): three subgraphs answering disjoint root
fields with no errors compose to a response whose `errors` field is omitted
entirely. -/
theorem merge_results_composition_witness :
    (mergeResults
      [("a", [("data", Json.obj [("users", Json.arr [])])]),
       ("b", [("data", Json.obj [("posts", Json.arr [])])]),
       ("c", [("data", Json.obj [("reviews", Json.arr [])])])]).errors = none := by
  have h := (merge_results_composition
    [("a", [("data", Json.obj [("users", Json.arr [])])]),
     ("b", [("data", Json.obj [("posts", Json.arr [])])]),
     ("c", [("data", Json.obj [("reviews", Json.arr [])])])] (by decide)).1
  rw [h]
  rfl

/-- C3: when no extracted root field yields any owning or extending subgraph
(`fieldServices` is empty for every field), the query is dispatched to every
entry of the service-URL map — the broadcast failsafe of
`execute_federated_query` lines 232-235. -/
theorem broadcast_fallback_on_unroutable (M : OwnershipMaps)
    (urls : List (String × String)) (fields : List String)
    (h : ∀ f ∈ fields, fieldServices M f = []) :
    servicesToDispatch M urls fields = urls.map Prod.fst := by
  unfold servicesToDispatch
  rw [determineServices_nil M fields h]
  rfl

/-- Witness for C3: an unroutable field name against empty ownership maps is
broadcast to both known subgraphs. -/
theorem broadcast_fallback_on_unroutable_witness :
    servicesToDispatch emptyMaps [("users", "http://u"), ("posts", "http://p")]
      ["unknownField"] = ["users", "posts"] := by
  rw [broadcast_fallback_on_unroutable emptyMaps
    [("users", "http://u"), ("posts", "http://p")] ["unknownField"] (by decide)]
  rfl

/-- Counterexample to C4 as stated: on the transformed-query path one call is
issued (one result is stored) yet the per-run record buffer stays empty —
`_execute_with_transformed_queries` never calls `_track_service_call`, so the
buffer does not contain one record per call made. -/
theorem transformed_path_untracked_counterexample :
    (executeWithTransformedQueries emptyMaps [("posts", "http://p")] ["posts"] []
      (fun _ _ => .success [("data", Json.obj [("posts", Json.arr [])])] 12) []).1.length = 1
    ∧ (executeWithTransformedQueries emptyMaps [("posts", "http://p")] ["posts"] []
      (fun _ _ => .success [("data", Json.obj [("posts", Json.arr [])])] 12) []).2 = [] := by
  exact ⟨rfl, rfl⟩

/-- C4 (amended): on the plain path (`_execute_on_services`), when the run id
is truthy, the run's buffer receives exactly one `ServiceCallRecord` per call
made (services present in the URL map), in call order, carrying that call's
duration and status; transformed-path calls are not tracked (see the
counterexample). -/
theorem plain_path_records_every_call (urls : List (String × String))
    (names : List String) (runId : Option String) (oc : String → CallOutcome)
    (h : runIdTruthy runId = true) :
    (executeOnServices urls names runId oc).2 =
      (names.filter fun nm => (lookupStr urls nm).isSome).map
        fun nm => recordOf nm ((lookupStr urls nm).getD "" ++ "/graphql") (oc nm) := by
  rw [execOnServices_records]
  simp [h]

/-- Witness for C4 (amended): one failed call to `users` (HTTP 500, 30000 ms)
and one skipped unknown service leave exactly one record with that duration
and status. -/
theorem plain_path_records_every_call_witness :
    (executeOnServices [("users", "http://u")] ["users", "ghost"] (some "run-1")
      (fun _ => .httpError 500 30000)).2 =
      [⟨"users", "http://u/graphql", 30000, 500, true⟩] := by
  rw [plain_path_records_every_call [("users", "http://u")] ["users", "ghost"]
    (some "run-1") (fun _ => .httpError 500 30000) (by decide)]
  rfl

/-- C5 (the code, evaluated at the failing input): a subgraph whose SDL
declares `extend type User @key(...)` is recorded NOWHERE — the branch at
federation.py line 116 requires `line.startswith('type ')`, which an
`extend `-prefixed line never satisfies, so the `else` arm that would append
to `type_extensions` (lines 124-128) is unreachable for real extension lines
and the maps stay empty.  A non-extend `type User @key(...)` line, by
contrast, is recorded as ownership, showing the scan itself works. -/
theorem extend_type_key_lines_skipped :
    parseSchemaTypes "reviews"
      "extend type User @key(fields: \"id\") \x7b\n  id: ID!\n  reviews: [Review!]!\n\x7d"
      emptyMaps = emptyMaps
    ∧ (parseSchemaTypes "users"
      "type User @key(fields: \"id\") \x7b\n  id: ID!\n  name: String!\n\x7d"
      emptyMaps).typeToService = [("User", "users")] := by
  exact ⟨by decide, by decide⟩

/-- C6: entity splicing is identifier-correct — a stub (an object with an
`id` key and at most one other field, under a truthy inferred type) is
replaced exactly by the first resolved entity of that type whose `get("id")`
equals the stub's id, and left unchanged when no such entity exists; with an
empty resolved set (a failed resolution) the splice changes nothing anywhere
in the tree; and the dict rebuild keeps every key of every non-stub object in
order (non-stub parts keep their structure).  Exceptions cannot arise in the
pure splice; `_resolve_entities` additionally returns the original results on
any error (federation.py lines 474-476). -/
theorem entity_splicing_identifier_correct (M : OwnershipMaps) :
    (∀ (R : ResolvedEntities) (t : String) (fs : List (String × Json)),
      isStubFields fs = true → t ≠ "" →
      (mergeV M R (some t) (Json.obj fs) =
        (match findEntity R t ((pyLookup fs "id").getD Json.null) with
         | some e => Json.obj e
         | none => Json.obj fs))
      ∧ ∀ e, findEntity R t ((pyLookup fs "id").getD Json.null) = some e →
          entityIdOf e = (pyLookup fs "id").getD Json.null)
    ∧ (∀ (tn : Option String) (v : Json), mergeV M [] tn v = v)
    ∧ (∀ (R : ResolvedEntities) (fs : List (String × Json)),
        (mergeF M R fs).map Prod.fst = fs.map Prod.fst) := by
  refine ⟨?_, mergeV_nil M, mergeF_keys M⟩
  intro R t fs hs ht
  constructor
  · have hc : (isStubFields fs && tnTruthy (some t)) = true := by
      simp [hs, tnTruthy, ht]
    simp [mergeV, hc]
  · intro e he
    unfold findEntity at he
    cases hl : lookupEntities R t with
    | none => rw [hl] at he; simp at he
    | some es =>
      rw [hl] at he
      simp only [Option.some_bind] at he
      have h2 := List.find?_some he
      exact (Json.beq_iff_eq _ _).mp h2

/-- Witness for C6: the stub `{id: "1"}` of type `User` is replaced by the
resolved `User` entity with the same id. -/
theorem entity_splicing_identifier_correct_witness :
    mergeV emptyMaps [("User", [[("id", Json.str "1"), ("name", Json.str "Ada")]])]
      (some "User") (Json.obj [("id", Json.str "1")]) =
      Json.obj [("id", Json.str "1"), ("name", Json.str "Ada")] := by
  have h := ((entity_splicing_identifier_correct emptyMaps).1
    [("User", [[("id", Json.str "1"), ("name", Json.str "Ada")]])] "User"
    [("id", Json.str "1")] (by decide) (by decide)).1
  rw [h]
  rfl

/-- C7: `execute_federated_query` never raises — an exception inside the try
block (a parse failure of the client query in particular) yields the
request-level response `{data: null, errors: [{message: "Federation error:
..."}]}`; every subgraph-call failure instead appears inline in the composed
response's error list while the data contributed by succeeding subgraphs is
still present. -/
theorem federated_query_error_containment (M : OwnershipMaps)
    (urls : List (String × String)) (runId : Option String)
    (oc : String → CallOutcome) :
    (∀ e, executeFederatedQuery M urls runId oc (.error e) =
      { data := Json.null,
        errors := some [Json.obj [("message", Json.str ("Federation error: " ++ e))]] })
    ∧ (∀ rootFields s status dur,
        s ∈ servicesToDispatch M urls rootFields →
        (lookupStr urls s).isSome →
        oc s = .httpError status dur →
        Json.obj [("message", Json.str (svcErrorMessage s (toString status)))] ∈
          (executeFederatedQuery M urls runId oc (.ok rootFields)).errors.getD [])
    ∧ (∀ rootFields s body dur ds k v,
        s ∈ servicesToDispatch M urls rootFields →
        (lookupStr urls s).isSome →
        oc s = .success body dur →
        pyLookup body "data" = some (Json.obj ds) →
        (k, v) ∈ ds →
        (mergedDataLookup (executeFederatedQuery M urls runId oc (.ok rootFields)) k).isSome) := by
  refine ⟨fun e => rfl, ?_, ?_⟩
  · intro rootFields s status dur hmem hurl hoc
    have h1 : lookupAssoc
        (executeOnServices urls (servicesToDispatch M urls rootFields) runId oc).1 s =
        some (responseOf s (oc s)) :=
      execOnServices_results_lookup urls _ runId oc s hurl hmem
    rw [hoc] at h1
    have h2 := lookupAssoc_mem _ _ _ h1
    have h3 : Json.obj [("message", Json.str (svcErrorMessage s (toString status)))] ∈
        errsOf (responseOf s (CallOutcome.httpError status dur)) := by
      simp [responseOf, svcErrorResponse, errsOf, pyLookup]
    have h4 := mem_errsConcat _ _ h2 _ h3
    have h6 : (mergeResults
        (executeOnServices urls (servicesToDispatch M urls rootFields) runId oc).1).errors =
        some (errsConcat
          (executeOnServices urls (servicesToDispatch M urls rootFields) runId oc).1) := by
      rw [mergeResults_errors_eq]
      have hne : ¬(errsConcat
          (executeOnServices urls (servicesToDispatch M urls rootFields) runId
            oc).1).isEmpty = true := by
        intro hz
        rw [List.isEmpty_iff] at hz
        rw [hz] at h4
        simp at h4
      rw [if_neg hne]
    show _ ∈ (mergeResults
      (executeOnServices urls (servicesToDispatch M urls rootFields) runId oc).1).errors.getD []
    rw [h6]
    simpa using h4
  · intro rootFields s body dur ds k v hmem hurl hoc hdata hkv
    have h1 : lookupAssoc
        (executeOnServices urls (servicesToDispatch M urls rootFields) runId oc).1 s =
        some (responseOf s (oc s)) :=
      execOnServices_results_lookup urls _ runId oc s hurl hmem
    rw [hoc] at h1
    have h2 : (s, body) ∈
        (executeOnServices urls (servicesToDispatch M urls rootFields) runId oc).1 :=
      lookupAssoc_mem _ _ _ h1
    have hcontrib : (dataContrib body k).isSome := by
      unfold dataContrib dataFieldsOf
      rw [hdata]
      exact lastLookup_isSome_of_mem ds k v hkv
    have h3 := foldl_contrib_isSome
      (executeOnServices urls (servicesToDispatch M urls rootFields) runId oc).1 k none
      (Or.inr ⟨(s, body), h2, hcontrib⟩)
    show (mergedDataLookup (mergeResults
      (executeOnServices urls (servicesToDispatch M urls rootFields) runId oc).1) k).isSome = true
    rw [mergedDataLookup_foldl]
    exact h3

/-- Witness for C7: with empty ownership maps the query broadcasts to both
subgraphs; `b` fails with HTTP 500 and its error message appears inline in the
composed error list. -/
theorem federated_query_error_containment_witness :
    Json.obj [("message", Json.str (svcErrorMessage "b" (toString 500)))] ∈
      (executeFederatedQuery emptyMaps [("a", "http://a"), ("b", "http://b")]
        (some "r")
        (fun s => if s = "b" then .httpError 500 3
          else .success [("data", Json.obj [("users", Json.arr [])])] 2)
        (.ok ["anything"])).errors.getD [] := by
  exact (federated_query_error_containment emptyMaps [("a", "http://a"), ("b", "http://b")]
    (some "r")
    (fun s => if s = "b" then .httpError 500 3
      else .success [("data", Json.obj [("users", Json.arr [])])] 2)).2.1
    ["anything"] "b" 500 3 (by decide) (by decide) (by rfl)

/-- C8: transforming the same query for the same target subgraph twice yields
a structurally identical query tree — `_transform_query_for_service` is
idempotent. -/
theorem transform_query_idempotent (M : OwnershipMaps) (svc : String)
    (doc : List Definition) :
    transformDocument M svc (transformDocument M svc doc) =
      transformDocument M svc doc := by
  unfold transformDocument
  rw [List.map_map]
  apply List.map_congr_left
  intro d _
  cases d with
  | op nm vds dirs sels =>
    simp [Function.comp, transformSelectionSet_idem]
  | other t => rfl

/-- C9: the fallback heuristic `_field_to_type_name` drops a trailing `'s'`
(when the name ends in `'s'` and is longer than one character) and
`str.capitalize()`s the rest — first character uppercased, every remaining
character lowercased — so `"blogPosts"` maps to `"Blogpost"`, not
`"BlogPost"`; no character after the first of any heuristic result is an
ASCII uppercase letter (code points 65-90), hence no field name can ever map
to a multi-word type name such as `"BlogPost"`, and every consumer of the
fallback (routing, entity detection, transformation, splicing) inherits
this. -/
theorem field_heuristic_flattens_camel_case :
    fieldToTypeName "blogPosts" = "Blogpost"
    ∧ ("Blogpost" : String) ≠ "BlogPost"
    ∧ (∀ f : String, fieldToTypeName f =
        if pyEndsWithChar f 's' && f.toList.length > 1 then
          pyCapitalize (String.mk f.toList.dropLast)
        else pyCapitalize f)
    ∧ (∀ (f : String) (c : Char), c ∈ (fieldToTypeName f).toList.drop 1 →
        ¬(65 ≤ c.toNat ∧ c.toNat ≤ 90))
    ∧ (∀ f : String, fieldToTypeName f ≠ "BlogPost") := by
  exact ⟨by decide, by decide, fun f => rfl, fieldToTypeName_tail_not_upper,
    fieldToTypeName_ne_BlogPost⟩

/-- Witness for C9: the character `'l'` sits after the first position of
`fieldToTypeName "blogPosts"` and is not ASCII uppercase. -/
theorem field_heuristic_flattens_camel_case_witness :
    ¬(65 ≤ ('l' : Char).toNat ∧ ('l' : Char).toNat ≤ 90) :=
  field_heuristic_flattens_camel_case.2.2.2.1 "blogPosts" 'l' (by decide)

/-- C10 (the code, evaluated): `_execute_on_services` awaits each
`client.post` inside the `for` loop (its `tasks` list is never populated or
gathered), so subgraph calls are issued strictly sequentially — with two
services whose calls each take the full 30-second timeout, the second call
starts only at t = 30000 ms, not at t = 0 as a parallel fan-out would; one
slow or failing call therefore delays every later sibling, contradicting the
claimed concurrent dispatch. -/
theorem sequential_execution_schedule :
    executeOnServicesSchedule [("a", "http://a"), ("b", "http://b")] ["a", "b"]
      (fun _ => .httpError 0 30000) =
      [("a", 0, 30000), ("b", 30000, 60000)] := by
  rfl

end Federation

